import Mathlib

/-!
Verification development for the frame rendering and annotation
normalization engine of an algorithm-visualization frontend.

Each definition is a shallow embedding of a JavaScript/JSX function from
the repository, translated statement by statement.  JavaScript arrays
become `List`, possibly-missing object fields become `Option`, JS
numbers become `Int` (or `ℚ` where real division occurs), and JS
falsiness of `undefined`/`null`/`""` is made explicit at each use site.
-/

namespace AlgoViz

/-- Fixed default highlight color used by the array/linked-list
renderers (`'#3498db'`, "default blue" in source comments). -/

def defaultBlue : String := "#3498db"

/-- Fixed unhighlighted element color (`'#2ecc71'`, "default green"). -/

def defaultGreen : String := "#2ecc71"

/-!
## Highlight input formats and normalization

From `src/frontend/src/components/visualizers/ArrayVisualizer.jsx`
(second variant in the file, the one with `normalizeHighlights`).

A raw highlight value handed to the renderer is one of:
  * absent (`undefined`/`null`, falsy in the `if (!h)` test);
  * a plain JS array of indices (`Array.isArray(h)` branch);
  * an object that may carry `indices` / `colors` / `labels` fields,
    any of which may be missing (the object is returned unchanged).
Labels may be `null` per entry, hence `Option String` inside the list.
-/

/-- Raw highlight input, one constructor per JS shape. -/

inductive RawHighlights where
  | absent : RawHighlights
  | flat (ids : List Nat) : RawHighlights
  | obj (indices : Option (List Nat)) (colors : Option (List String))
      (labels : Option (List (Option String))) : RawHighlights
deriving DecidableEq

/-- Result shape of `normalizeHighlights`.  Fields are `Option` because
the object branch returns the caller's object unchanged, which may be
missing any of the three keys; downstream code reads them with `?.`. -/

structure NormHighlights where
  indices : Option (List Nat)
  colors : Option (List String)
  labels : Option (List (Option String))
deriving DecidableEq

/-- `normalizeHighlights` from ArrayVisualizer.jsx:
`if (!h) return {indices: [], colors: [], labels: []};`
`if (Array.isArray(h)) return {indices: h, colors: h.map(() => '#3498db'), labels: h.map(() => null)};`
`return h;` (object format passed through unchanged). -/

def normalizeHighlights : RawHighlights → NormHighlights
  | .absent => ⟨some [], some [], some []⟩
  | .flat ids =>
      ⟨some ids, some (ids.map (fun _ => defaultBlue)), some (ids.map (fun _ => none))⟩
  | .obj i c l => ⟨i, c, l⟩

/-- JS object spread `{...a, ...b}` over the three highlight fields: a
field present in `b` wins, otherwise the field of `a` is used. -/

def spreadMerge (a b : NormHighlights) : NormHighlights :=
  ⟨b.indices.orElse (fun _ => a.indices),
   b.colors.orElse (fun _ => a.colors),
   b.labels.orElse (fun _ => a.labels)⟩

/-- `mergedHighlights` from ArrayVisualizer.jsx:
`{...normalizeHighlights(data.highlights), ...normalizeHighlights(highlights)}` —
the frame-level default `dataH` spread first, the caller-supplied
override `propH` spread on top. -/

def mergedHighlights (dataH propH : RawHighlights) : NormHighlights :=
  spreadMerge (normalizeHighlights dataH) (normalizeHighlights propH)

/-!
## Per-element color and label selection

ArrayVisualizer.jsx (box rendering loop):
`const isHighlighted = arrayData.highlights?.indices?.includes(index);`
`const highlightIndex = arrayData.highlights?.indices?.indexOf(index);`
`const color = isHighlighted && highlightIndex !== -1 ? (arrayData.highlights.colors?.[highlightIndex] || '#3498db') : '#2ecc71';`
`const label = isHighlighted && highlightIndex !== -1 ? arrayData.highlights.labels?.[highlightIndex] : null;`

`includes(x)` is true exactly when `indexOf(x)` is not `-1`, i.e. when
`findIdx?` returns `some`; the two JS reads are collapsed into one
`findIdx?` match.  A missing `indices` field makes `isHighlighted`
undefined (falsy), giving the unhighlighted branch.  Out-of-range
element access yields `undefined`, which `|| '#3498db'` replaces (as it
also would an empty string, `""` being falsy). -/

def arrayElemColor (h : NormHighlights) (index : Nat) : String :=
  match h.indices with
  | none => defaultGreen
  | some ids =>
    match ids.findIdx? (fun y => y == index) with
    | none => defaultGreen
    | some hi =>
      match h.colors.bind (fun cs => cs.get? hi) with
      | none => defaultBlue
      | some c => if c = "" then defaultBlue else c

/-- The label rendered for an element: the JSX emits the label node only
under `{label && ...}`, so `undefined`, `null` and `""` all render
nothing (`none` here). -/

def arrayElemLabel (h : NormHighlights) (index : Nat) : Option String :=
  match h.indices with
  | none => none
  | some ids =>
    match ids.findIdx? (fun y => y == index) with
    | none => none
    | some hi =>
      match (h.labels.bind (fun ls => ls.get? hi)).bind id with
      | none => none
      | some s => if s = "" then none else some s

/-- One rendered array box: value, its index decoration, background
color, and the (truthy) label shown above it, if any. -/

structure ArrayBox where
  value : Int
  index : Nat
  color : String
  label : Option String
deriving DecidableEq

/-- The `arrayData.values.map((value, index) => ...)` loop: one box per
element, colored and labeled from the canonical highlights. -/

def renderArrayBoxes (values : List Int) (h : NormHighlights) : List ArrayBox :=
  values.enum.map (fun p => ⟨p.2, p.1, arrayElemColor h p.1, arrayElemLabel h p.1⟩)

/-!
## Linked-list element coloring (LinkedListVisualizer.jsx)

`const isHighlighted = data.highlights?.indices?.includes(index);`
`const highlightIndex = data.highlights?.indices?.indexOf(index);`
`const color = isHighlighted ? (data.highlights.colors[highlightIndex] || '#3498db') : '#2ecc71';`
`const label = isHighlighted ? data.highlights.labels[highlightIndex] : null;`

Here `colors` and `labels` are read without optional chaining, so the
fields are taken as present (lists, possibly shorter than `indices`,
which is the scenario of interest); a plain out-of-range JS array read
yields `undefined`, never a thrown error.
-/

/-- Element color in LinkedListVisualizer.jsx. -/

def llElemColor (ids : List Nat) (colors : List String) (index : Nat) : String :=
  match ids.findIdx? (fun y => y == index) with
  | none => defaultGreen
  | some hi =>
    match colors.get? hi with
    | none => defaultBlue
    | some c => if c = "" then defaultBlue else c

/-- Element label in LinkedListVisualizer.jsx, after the `{label && ...}`
truthiness filter in the JSX. -/

def llElemLabel (ids : List Nat) (labels : List (Option String)) (index : Nat) :
    Option String :=
  match ids.findIdx? (fun y => y == index) with
  | none => none
  | some hi =>
    match (labels.get? hi).bind id with
    | none => none
    | some s => if s = "" then none else some s

/-!
## Bar-height geometry (spec §4.2)

The repository slice under `src/` contains the box-style array renderer
only; the bar-proportional geometry resolver the spec describes is not
among these files, so it is modelled from the spec below.
-/

/-- Modelled from the spec: the fixed pixels-per-unit constant `SCALE`
of §4.2 (its concrete value is not pinned by the spec; 200 is used as a
representative positive constant). -/

def SCALE : ℚ := 200

/-- Modelled from the spec: `maxAbsValue = max(|v| for v in values)`,
floored at 1 to avoid degenerate zero-division when every value is 0. -/

def maxAbsValue (values : List Int) : Nat :=
  max 1 ((values.map Int.natAbs).foldl max 0)

/-- Modelled from the spec: `height(v) = (|v| / maxAbsValue) * SCALE`. -/

def barHeight (values : List Int) (v : Int) : ℚ :=
  ((v.natAbs : ℚ) / (maxAbsValue values : ℚ)) * SCALE

/-!
## Module dispatch (Visualizer.jsx)

`renderVisualization` switches on the module tag.  The file imports
only `VisualizerControls`, `VisualizerFactory`, `ArrayVisualizer`,
`LinkedListVisualizer` and `StackVisualizer`; the `'bitmask'` and
`'binaryheap'` cases nevertheless reference `BitmaskVisualizer` and
`HeapVisualizer`.  Evaluating an identifier with no binding throws a
`ReferenceError` in JS, embedded here as the `refError` outcome.
-/

/-- Outcome of one dispatch: a successfully referenced component
element, the default-branch "Unsupported module type" placeholder, or a
thrown reference error. -/

inductive RenderOutcome where
  | component (name : String) : RenderOutcome
  | unsupported (module : String) : RenderOutcome
  | refError (name : String) : RenderOutcome
deriving DecidableEq

/-- Component identifiers bound by the import list of Visualizer.jsx. -/

def importedComponents : List String :=
  ["VisualizerControls", "VisualizerFactory", "ArrayVisualizer",
   "LinkedListVisualizer", "StackVisualizer"]

/-- Referencing a component identifier: an element if the identifier is
bound by an import, a thrown `ReferenceError` otherwise. -/

def mkElement (name : String) : RenderOutcome :=
  if importedComponents.contains name then .component name else .refError name

/-- The `switch (module)` of `renderVisualization` in Visualizer.jsx. -/

def renderVisualization (module : String) : RenderOutcome :=
  match module with
  | "array" | "sorting" | "searching" => mkElement "ArrayVisualizer"
  | "linkedlist" => mkElement "LinkedListVisualizer"
  | "stack" => mkElement "StackVisualizer"
  | "bitmask" => mkElement "BitmaskVisualizer"
  | "binaryheap" => mkElement "HeapVisualizer"
  | "trees" => mkElement "VisualizerFactory"
  | _ => .unsupported module

/-!
## Tree rendering (TreeVisualizer.jsx)

`const nodeMap = new Map(data.nodes.map(node => [node.id, node]));`
(a JS `Map` keeps the last entry per duplicate key, so lookup searches
the reversed list).  Edges: for each node, a line to the left/right
child is emitted only when the child id resolves in `nodeMap`; a
dangling reference emits nothing.  Nodes: one circle per node,
unconditionally.  Highlight styling (stroke color/width, node fill,
label text) does not alter which edges or circles exist and is not
modeled.
-/

/-- One tree node as consumed by TreeVisualizer.jsx. -/

structure TreeNode where
  id : Nat
  value : Int
  x : Int
  y : Int
  left_child_id : Option Nat
  right_child_id : Option Nat
deriving DecidableEq

/-- A tree structure snapshot (`data` prop). -/

structure TreeData where
  name : String
  nodes : List TreeNode
deriving DecidableEq

/-- `nodeMap.get(id)`: last entry wins on duplicate ids. -/

def treeNodeMapGet (nodes : List TreeNode) (i : Nat) : Option TreeNode :=
  nodes.reverse.find? (fun n => n.id == i)

/-- An emitted SVG line between parent and child coordinates. -/

structure TreeEdge where
  x1 : Int
  y1 : Int
  x2 : Int
  y2 : Int
deriving DecidableEq

/-- The edge emitted for one child reference of a node: nothing when the
reference is absent or dangling, one line when it resolves. -/

def childEdge (nodes : List TreeNode) (node : TreeNode) (r : Option Nat) :
    List TreeEdge :=
  match r with
  | none => []
  | some cid =>
    match treeNodeMapGet nodes cid with
    | none => []
    | some c => [⟨node.x, node.y, c.x, c.y⟩]

/-- Edges emitted by one node (left then right child). -/

def treeEdgesOfNode (nodes : List TreeNode) (node : TreeNode) : List TreeEdge :=
  childEdge nodes node node.left_child_id ++ childEdge nodes node node.right_child_id

/-- All edges of the snapshot (the first `data.nodes.map` loop). -/

def treeEdges (nodes : List TreeNode) : List TreeEdge :=
  nodes.flatMap (treeEdgesOfNode nodes)

/-- The circles of the second `data.nodes.map` loop: one per node,
regardless of any reference's validity. -/

def treeCircles (nodes : List TreeNode) : List (Int × Int × Int) :=
  nodes.map (fun n => (n.x, n.y, n.value))

/-- `const margin = 60;` shared by TreeVisualizer and GraphVisualizer. -/

def margin : Int := 60

/-- `Math.max(...l)` for a spread of numbers; callers only reach it with
a non-empty list (the empty case would be `-Infinity` in JS). -/

def jsMathMax (l : List Int) : Int :=
  match l with
  | [] => 0
  | x :: xs => xs.foldl max x

/-- `const maxX = Math.max(...data.nodes.map(n => n.x)) + margin;` -/

def treeMaxX (d : TreeData) : Int := jsMathMax (d.nodes.map (fun n => n.x)) + margin

/-- `const maxY = Math.max(...data.nodes.map(n => n.y)) + margin;` -/

def treeMaxY (d : TreeData) : Int := jsMathMax (d.nodes.map (fun n => n.y)) + margin

/-- The rendered tree visual: viewBox bounds, edge lines, node circles. -/

structure TreeOutput where
  name : String
  maxX : Int
  maxY : Int
  edges : List TreeEdge
  circles : List (Int × Int × Int)
deriving DecidableEq

/-- TreeVisualizer.jsx: `if (!data || !data.nodes || data.nodes.length
=== 0) return null;` then the SVG with bounds, edges and circles. -/

def treeVisualizer (data : Option TreeData) : Option TreeOutput :=
  match data with
  | none => none
  | some d =>
    if d.nodes.isEmpty then none
    else some ⟨d.name, treeMaxX d, treeMaxY d, treeEdges d.nodes, treeCircles d.nodes⟩

/-!
## Graph rendering (GraphVisualizer.jsx)
-/

/-- One graph node (`{id, label, x, y, color, highlighted}`). -/

structure GraphNode where
  id : Nat
  label : String
  x : Int
  y : Int
  color : String
  highlighted : Bool
deriving DecidableEq

/-- One graph edge record. -/

structure GraphEdge where
  from_node : Nat
  to_node : Nat
  weight : Option Int
  directed : Bool
  highlighted : Bool
deriving DecidableEq

/-- A graph structure snapshot. -/

structure GraphData where
  name : String
  type : String
  nodes : List GraphNode
  edges : List GraphEdge
deriving DecidableEq

/-- One rendered graph edge: endpoint coordinates, optional weight text
at the midpoint numerator (midpoint itself is half of these sums),
arrowhead flag for directed edges, and stroke color. -/

structure GraphEdgeVis where
  x1 : Int
  y1 : Int
  x2 : Int
  y2 : Int
  weight : Option Int
  arrowhead : Bool
  color : String
deriving DecidableEq

/-- The body of the `data.edges?.map` loop:
`const fromNode = data.nodes.find(n => n.id === edge.from_node);`
(first match), same for `toNode`; `if (!fromNode || !toNode) return
null;` drops the edge. -/

def renderGraphEdge (nodes : List GraphNode) (e : GraphEdge) : Option GraphEdgeVis :=
  match nodes.find? (fun n => n.id == e.from_node),
      nodes.find? (fun n => n.id == e.to_node) with
  | some f, some t =>
      some ⟨f.x, f.y, t.x, t.y, e.weight, e.directed,
        if e.highlighted then "#4f9bff" else "#555"⟩
  | _, _ => none

/-- All rendered graph edges (`null` returns render nothing). -/

def graphEdgesVis (nodes : List GraphNode) (edges : List GraphEdge) :
    List GraphEdgeVis :=
  edges.filterMap (renderGraphEdge nodes)

/-- `const nodeColor = node.highlighted ? (node.color === 'default' ?
'#4f9bff' : node.color) : (node.color === 'default' ? '#3498db' :
node.color);` -/

def graphNodeColor (n : GraphNode) : String :=
  if n.highlighted then (if n.color = "default" then "#4f9bff" else n.color)
  else (if n.color = "default" then "#3498db" else n.color)

/-- One circle per graph node, unconditionally. -/

def graphCircles (nodes : List GraphNode) : List (Int × Int × String × String) :=
  nodes.map (fun n => (n.x, n.y, graphNodeColor n, n.label))

/-- `const maxX = Math.max(...data.nodes.map(n => n.x)) + margin;` -/

def graphMaxX (d : GraphData) : Int := jsMathMax (d.nodes.map (fun n => n.x)) + margin

/-- `const maxY = Math.max(...data.nodes.map(n => n.y)) + margin;` -/

def graphMaxY (d : GraphData) : Int := jsMathMax (d.nodes.map (fun n => n.y)) + margin

/-- The rendered graph visual. -/

structure GraphOutput where
  name : String
  maxX : Int
  maxY : Int
  edges : List GraphEdgeVis
  circles : List (Int × Int × String × String)
deriving DecidableEq

/-- GraphVisualizer.jsx: empty-node guard, then bounds, edges, nodes. -/

def graphVisualizer (data : Option GraphData) : Option GraphOutput :=
  match data with
  | none => none
  | some d =>
    if d.nodes.isEmpty then none
    else some ⟨d.name, graphMaxX d, graphMaxY d,
      graphEdgesVis d.nodes d.edges, graphCircles d.nodes⟩

/-!
## Queue rendering (QueueVisualizer.jsx)

`const values = data?.values || (Array.isArray(data) ? data : []);`
then an empty-state placeholder for an empty list, otherwise one element
per value with `isFront = index === 0` and `isRear = index ===
values.length - 1`, independent of the `highlights` prop (whose default
is `{}`).
-/

/-- The `data` prop of the queue renderer: `null`/`undefined` is
`Option.none`; otherwise either an object with a `values` field or a
direct array. -/

inductive QueueInput where
  | objData (values : List Int) : QueueInput
  | arrData (values : List Int) : QueueInput
deriving DecidableEq

/-- Value extraction (`data?.values || (Array.isArray(data) ? data : [])`;
a `[]` values field is truthy in JS and is taken as-is). -/

def queueValues (data : Option QueueInput) : List Int :=
  match data with
  | none => []
  | some (.objData vs) => vs
  | some (.arrData vs) => vs

/-- `isHighlighted ? highlights.colors?.[highlights.indices.indexOf(index)]
: '#2ecc71'` — no `||` fallback here, so a missing color stays
`undefined` (`none`). -/

def queueElemColor (h : NormHighlights) (index : Nat) : Option String :=
  match h.indices with
  | none => some defaultGreen
  | some ids =>
    match ids.findIdx? (fun y => y == index) with
    | none => some defaultGreen
    | some hi => h.colors.bind (fun cs => cs.get? hi)

/-- `isHighlighted ? highlights.labels?.[...] : ''`, then the
`{label && ...}` truthiness filter in the JSX. -/

def queueElemLabel (h : NormHighlights) (index : Nat) : Option String :=
  match h.indices with
  | none => none
  | some ids =>
    match ids.findIdx? (fun y => y == index) with
    | none => none
    | some hi =>
      match (h.labels.bind (fun ls => ls.get? hi)).bind id with
      | none => none
      | some s => if s = "" then none else some s

/-- One rendered queue element. -/

structure QueueElem where
  value : Int
  color : Option String
  label : Option String
  isFront : Bool
  isRear : Bool
deriving DecidableEq

/-- The `values.map((value, index) => ...)` loop, with the running index
made explicit (`total` is `values.length`). -/

def queueElemsAux (h : NormHighlights) (total : Nat) : Nat → List Int → List QueueElem
  | _, [] => []
  | i, v :: rest =>
      ⟨v, queueElemColor h i, queueElemLabel h i, i == 0, i == total - 1⟩
        :: queueElemsAux h total (i + 1) rest

/-- Rendered queue: the `EMPTY QUEUE` placeholder or the element row. -/

inductive QueueOutput where
  | emptyQueue : QueueOutput
  | elements (elems : List QueueElem) : QueueOutput
deriving DecidableEq

/-- QueueVisualizer.jsx top level. -/

def queueVisualizer (data : Option QueueInput) (h : NormHighlights) : QueueOutput :=
  let values := queueValues data
  if values.isEmpty then .emptyQueue
  else .elements (queueElemsAux h values.length 0 values)

/-!
## Linked-list rendering (the nodes-based LinkedListVisualizer)

Each node record carries value, `next`, `highlighted`, `color`.  For
each node at position `i` the renderer emits the node box (head label
iff `i === 0`, tail label iff `i === nodes.length - 1`), then an arrow
when `node.next !== null && node.next !== undefined`, else the `NULL`
terminal marker.
-/

/-- One linked-list node record. -/

structure LLNode where
  value : Int
  next : Option Nat
  highlighted : Bool
  color : String
deriving DecidableEq

/-- A linked-list structure snapshot. -/

structure LLData where
  name : String
  type : String
  nodes : List LLNode
deriving DecidableEq

/-- `const nodeColor = node.highlighted ? (node.color === 'default' ?
'#4f9bff' : node.color) : (node.color === 'default' ? '#3498db' :
node.color);` -/

def llNodeColor (n : LLNode) : String :=
  if n.highlighted then (if n.color = "default" then "#4f9bff" else n.color)
  else (if n.color = "default" then "#3498db" else n.color)

/-- One emitted fragment of the linked-list row. -/

inductive LLItem where
  | nodeBox (index : Nat) (value : Int) (isHead : Bool) (isTail : Bool)
      (color : String) : LLItem
  | arrow : LLItem
  | nullMarker : LLItem
deriving DecidableEq

/-- The `data.nodes.map((node, index) => ...)` loop with the running
index explicit (`total` is `nodes.length`). -/

def llRenderAux (total : Nat) : Nat → List LLNode → List LLItem
  | _, [] => []
  | i, n :: rest =>
      .nodeBox i n.value (i == 0) (i == total - 1) (llNodeColor n)
        :: (if n.next.isSome then .arrow else .nullMarker)
        :: llRenderAux total (i + 1) rest

/-- The rendered fragment sequence of a snapshot's node list. -/

def llRender (nodes : List LLNode) : List LLItem :=
  llRenderAux nodes.length 0 nodes

/-- The linked-list renderer top level: `if (!data || !data.nodes ||
data.nodes.length === 0) return null;`. -/

def linkedListVisualizer (data : Option LLData) : Option (List LLItem) :=
  match data with
  | none => none
  | some d => if d.nodes.isEmpty then none else some (llRender d.nodes)

/-- The well-formedness convention of the claim: absence of `next`
marks the list end, so every node but the last has a `next` and the
last has none. -/

def llWellFormed : List LLNode → Bool
  | [] => true
  | [n] => n.next.isNone
  | n :: m :: rest => n.next.isSome && llWellFormed (m :: rest)

/-- Head-box detector. -/

def isHeadBox : LLItem → Bool
  | .nodeBox _ _ hd _ _ => hd
  | _ => false

/-- Tail-box detector. -/

def isTailBox : LLItem → Bool
  | .nodeBox _ _ _ tl _ => tl
  | _ => false

/-!
## Composite frames and the VisualizerFactory dispatcher

`VisualizerFactory` renders, inside `structures-grid`, one child
visualizer per structure of each category, in the fixed source order
arrays, trees, graphs, linked_lists, stacks, queues, followed by the
`VariablesPanel`.  `frame.arrays?.map(...)` renders nothing when the
field is absent (`undefined`) exactly as when it is `[]`, so absent
category fields are embedded as the empty list.  `VariablesPanel`
returns `null` when the variable table is absent or empty.
-/

/-- An array structure snapshot as carried by a composite frame. -/

structure ArraySnap where
  name : String
  values : List Int
  highlights : RawHighlights
deriving DecidableEq

/-- A stack structure snapshot (`{name, values, ...}`). -/

structure StackData where
  name : String
  values : List Int
deriving DecidableEq

/-- A queue structure snapshot as carried by a composite frame. -/

structure QueueData where
  name : String
  values : List Int
  front_index : Option Nat
  rear_index : Option Nat
deriving DecidableEq

/-- One `{name, value, type}` row of the flat variable table. -/

structure VariableEntry where
  name : String
  value : String
  type : String
deriving DecidableEq

/-- One frame of the execution timeline.  The JS field names `stacks`
and `variables` are reserved tokens in this Lean environment, so those
two fields are spelled `stackSnaps` and `varRows` here. -/

structure Frame where
  description : String
  arrays : List ArraySnap
  trees : List TreeData
  graphs : List GraphData
  linked_lists : List LLData
  stackSnaps : List StackData
  queues : List QueueData
  varRows : List VariableEntry
deriving DecidableEq

/-- The structure categories of a composite frame. -/

inductive Category where
  | arrays : Category
  | trees : Category
  | graphs : Category
  | linkedLists : Category
  | stacks : Category
  | queues : Category
  | vars : Category
deriving DecidableEq

/-- Position of each category in the fixed rendering order. -/

def catRank : Category → Nat
  | .arrays => 0
  | .trees => 1
  | .graphs => 2
  | .linkedLists => 3
  | .stacks => 4
  | .queues => 5
  | .vars => 6

/-- One child element emitted into the factory's structures grid. -/

inductive FactoryChild where
  | arrayChild (data : ArraySnap) : FactoryChild
  | treeChild (data : TreeData) : FactoryChild
  | graphChild (data : GraphData) : FactoryChild
  | listChild (data : LLData) : FactoryChild
  | stackChild (data : StackData) : FactoryChild
  | queueChild (data : QueueData) : FactoryChild
  | variablesPanel (vars : List VariableEntry) : FactoryChild
deriving DecidableEq

/-- The category a child element belongs to. -/

def childCategory : FactoryChild → Category
  | .arrayChild _ => .arrays
  | .treeChild _ => .trees
  | .graphChild _ => .graphs
  | .listChild _ => .linkedLists
  | .stackChild _ => .stacks
  | .queueChild _ => .queues
  | .variablesPanel _ => .vars

/-- The children of `VisualizerFactory` for a frame: per-category maps
in source order, then the variables panel (which renders `null`, i.e.
nothing, for an empty table). -/

def visualizerFactoryChildren (f : Frame) : List FactoryChild :=
  f.arrays.map .arrayChild
    ++ f.trees.map .treeChild
    ++ f.graphs.map .graphChild
    ++ f.linked_lists.map .listChild
    ++ f.stackSnaps.map .stackChild
    ++ f.queues.map .queueChild
    ++ (if f.varRows.isEmpty then [] else [.variablesPanel f.varRows])

/-- How many children a category should contribute: one per structure,
and one variables panel when the table is non-empty. -/

def categoryMultiplicity (f : Frame) : Category → Nat
  | .arrays => f.arrays.length
  | .trees => f.trees.length
  | .graphs => f.graphs.length
  | .linkedLists => f.linked_lists.length
  | .stacks => f.stackSnaps.length
  | .queues => f.queues.length
  | .vars => if f.varRows.isEmpty then 0 else 1

/-- C10: flat identifier-list normalization yields one entry per listed
identifier — the canonical index list is the input itself, and the
color/label lists have exactly the input's length with every color the
fixed default blue and every label null. -/

theorem flat_normalization_default_entries (ids : List Nat) :
    (normalizeHighlights (.flat ids)).indices = some ids ∧
    ((normalizeHighlights (.flat ids)).colors.getD []).length = ids.length ∧
    ((normalizeHighlights (.flat ids)).labels.getD []).length = ids.length ∧
    (∀ c ∈ (normalizeHighlights (.flat ids)).colors.getD [], c = defaultBlue) ∧
    (∀ l ∈ (normalizeHighlights (.flat ids)).labels.getD [], l = none) := by
  refine ⟨rfl, by simp [normalizeHighlights], by simp [normalizeHighlights], ?_, ?_⟩
  · intro c hc
    simp [normalizeHighlights] at hc
    exact hc.2
  · intro l hl
    simp [normalizeHighlights] at hl
    exact hl.2

/-- Witness for C10 at a concrete input. -/

theorem flat_normalization_default_entries_witness :
    (normalizeHighlights (.flat [2, 0, 7])).indices = some [2, 0, 7] ∧
    (∀ c ∈ (normalizeHighlights (.flat [2, 0, 7])).colors.getD [], c = defaultBlue) :=
  ⟨(flat_normalization_default_entries [2, 0, 7]).1,
   (flat_normalization_default_entries [2, 0, 7]).2.2.2.1⟩

/-- C1 counterexample: the frame-level default annotates identifier 0
(red, label A) and the caller-supplied override annotates identifier 1.
The claim requires the non-conflicting default entry for identifier 0
to be kept; the merged result drops it — the override's whole `indices`
field replaces the default's. -/

theorem merge_drops_nonconflicting_default_entry :
    (mergedHighlights (.obj (some [0]) (some ["red"]) (some [some "A"]))
        (.flat [1])).indices = some [1] ∧
    0 ∉ ((mergedHighlights (.obj (some [0]) (some ["red"]) (some [some "A"]))
        (.flat [1])).indices.getD []) := by
  constructor
  · rfl
  · decide

/-- C1 (amended): the override is layered on the default at the
granularity of whole highlight fields, not per identifier: any field
present in the normalized override replaces the default's entire field
(JS object spread).  Since absent and flat-list overrides normalize
with all three fields present, such an override replaces the default
annotation wholesale. -/

theorem merge_is_fieldwise_spread (dataH : RawHighlights) :
    (∀ ids, mergedHighlights dataH (.flat ids) = normalizeHighlights (.flat ids)) ∧
    (mergedHighlights dataH .absent = normalizeHighlights .absent) ∧
    (∀ i c l,
      (mergedHighlights dataH (.obj i c l)).indices
          = (i.orElse (fun _ => (normalizeHighlights dataH).indices)) ∧
      (mergedHighlights dataH (.obj i c l)).colors
          = (c.orElse (fun _ => (normalizeHighlights dataH).colors)) ∧
      (mergedHighlights dataH (.obj i c l)).labels
          = (l.orElse (fun _ => (normalizeHighlights dataH).labels))) := by
  refine ⟨fun ids => ?_, ?_, fun i c l => ⟨rfl, rfl, rfl⟩⟩
  · simp [mergedHighlights, spreadMerge, normalizeHighlights, Option.orElse]
  · simp [mergedHighlights, spreadMerge, normalizeHighlights, Option.orElse]

/-- Witness for the amended C1 at a concrete input: a flat override
`[1]` wholesale-replaces a default that annotated identifier 0. -/

theorem merge_is_fieldwise_spread_witness :
    mergedHighlights (.obj (some [0]) (some ["red"]) (some [some "A"])) (.flat [1])
      = normalizeHighlights (.flat [1]) :=
  (merge_is_fieldwise_spread (.obj (some [0]) (some ["red"]) (some [some "A"]))).1 [1]

/-- C9: when the parallel `colors`/`labels` lists are shorter than the
`indices` list, every identifier whose position is past their ends
renders with the fixed default blue and no label, in both the array and
linked-list renderers; and rendering is total — the array renderer
emits exactly one box per value (no out-of-range failure). -/

theorem short_parallel_lists_fall_back_to_defaults
    (ids : List Nat) (cs : List String) (ls : List (Option String))
    (index p : Nat)
    (hp : ids.findIdx? (fun y => y == index) = some p)
    (hc : cs.length ≤ p) (hl : ls.length ≤ p) :
    arrayElemColor ⟨some ids, some cs, some ls⟩ index = defaultBlue ∧
    arrayElemLabel ⟨some ids, some cs, some ls⟩ index = none ∧
    llElemColor ids cs index = defaultBlue ∧
    llElemLabel ids ls index = none ∧
    (∀ (values : List Int) (h : NormHighlights),
      (renderArrayBoxes values h).length = values.length) := by
  have hcs : cs.get? p = none := List.get?_eq_none.mpr hc
  have hls : ls.get? p = none := List.get?_eq_none.mpr hl
  refine ⟨?_, ?_, ?_, ?_, ?_⟩
  · simp only [arrayElemColor, hp, Option.bind, hcs]
  · simp only [arrayElemLabel, hp, Option.bind, hls]
  · simp only [llElemColor, hp, hcs]
  · simp only [llElemLabel, hp, hls, Option.bind]
  · intro values h
    simp [renderArrayBoxes]

/-- Witness for C9: identifiers `[0, 5]` with a single color and a
single label; identifier 5 sits at position 1, past both lists. -/

theorem short_parallel_lists_fall_back_to_defaults_witness :
    arrayElemColor ⟨some [0, 5], some ["red"], some [some "A"]⟩ 5 = defaultBlue ∧
    llElemColor [0, 5] ["red"] 5 = defaultBlue :=
  ⟨(short_parallel_lists_fall_back_to_defaults [0, 5] ["red"] [some "A"] 5 1
      (by decide) (by decide) (by decide)).1,
   (short_parallel_lists_fall_back_to_defaults [0, 5] ["red"] [some "A"] 5 1
      (by decide) (by decide) (by decide)).2.2.1⟩

/-- The fold seed is a lower bound of a `max` fold. -/

theorem le_foldl_max {α : Type*} [LinearOrder α] (l : List α) (a : α) :
    a ≤ l.foldl max a := by
  induction l generalizing a with
  | nil => exact le_refl a
  | cons x t ih => exact le_trans (le_max_left a x) (ih (max a x))

/-- Every member of the list is a lower bound of a `max` fold. -/

theorem mem_le_foldl_max {α : Type*} [LinearOrder α] {x : α} {l : List α}
    (hx : x ∈ l) (a : α) : x ≤ l.foldl max a := by
  induction l generalizing a with
  | nil => cases hx
  | cons y t ih =>
    rw [List.foldl_cons]
    rcases List.mem_cons.mp hx with rfl | h
    · exact le_trans (le_max_right a x) (le_foldl_max t (max a x))
    · exact ih h (max a y)

/-- A `max` fold is bounded by any common upper bound of seed and list. -/

theorem foldl_max_le {α : Type*} [LinearOrder α] {l : List α} {a b : α}
    (ha : a ≤ b) (h : ∀ x ∈ l, x ≤ b) : l.foldl max a ≤ b := by
  induction l generalizing a with
  | nil => exact ha
  | cons x t ih =>
    exact ih (max_le ha (h x (List.mem_cons_self x t)))
      (fun y hy => h y (List.mem_cons_of_mem x hy))

/-- The divisor is at least 1 as a rational. -/

theorem one_le_maxAbsValue_q (values : List Int) :
    (1 : ℚ) ≤ (maxAbsValue values : ℚ) := by
  have h : 1 ≤ maxAbsValue values := le_max_left 1 _
  exact_mod_cast h

/-- C2: bar heights — monotone non-decreasing in `|v|` for a fixed
snapshot, exactly `SCALE` at a maximum-magnitude element of a
not-all-zero snapshot, `0` on every element of an all-zero snapshot,
with a divisor floored at 1 (no division by zero) and every height a
finite value in `[0, SCALE]`. -/

theorem bar_height_geometry :
    (∀ (values : List Int) (a b : Int), a.natAbs ≤ b.natAbs →
      barHeight values a ≤ barHeight values b) ∧
    (∀ (values : List Int) (v : Int), v ∈ values →
      (∀ w ∈ values, w.natAbs ≤ v.natAbs) → v ≠ 0 →
      barHeight values v = SCALE) ∧
    (∀ values : List Int, (∀ w ∈ values, w = 0) →
      ∀ v ∈ values, barHeight values v = 0) ∧
    (∀ values : List Int, 1 ≤ maxAbsValue values) ∧
    (∀ (values : List Int) (v : Int),
      0 ≤ barHeight values v ∧ (v ∈ values → barHeight values v ≤ SCALE)) := by
  have hSpos : (0 : ℚ) ≤ SCALE := by norm_num [SCALE]
  have hmpos : ∀ values : List Int, (0 : ℚ) < (maxAbsValue values : ℚ) :=
    fun values => lt_of_lt_of_le one_pos (one_le_maxAbsValue_q values)
  refine ⟨?_, ?_, ?_, ?_, ?_⟩
  · intro values a b hab
    unfold barHeight
    refine mul_le_mul_of_nonneg_right ?_ hSpos
    exact div_le_div_of_nonneg_right (by exact_mod_cast hab) (le_of_lt (hmpos values))
  · intro values v hv hmax hv0
    have hub : (values.map Int.natAbs).foldl max 0 ≤ v.natAbs := by
      refine foldl_max_le (Nat.zero_le _) ?_
      intro x hx
      obtain ⟨w, hw, rfl⟩ := List.mem_map.mp hx
      exact hmax w hw
    have hlb : v.natAbs ≤ (values.map Int.natAbs).foldl max 0 :=
      mem_le_foldl_max (List.mem_map_of_mem Int.natAbs hv) 0
    have h1 : 1 ≤ v.natAbs := Int.natAbs_pos.mpr hv0
    have hm : maxAbsValue values = v.natAbs := by
      unfold maxAbsValue
      rw [le_antisymm hub hlb]
      exact max_eq_right h1
    unfold barHeight
    rw [hm, div_self (by exact_mod_cast Nat.one_le_iff_ne_zero.mp h1), one_mul]
  · intro values hz v hv
    have : v = 0 := hz v hv
    subst this
    simp [barHeight]
  · intro values
    exact le_max_left 1 _
  · intro values v
    constructor
    · unfold barHeight
      exact mul_nonneg (div_nonneg (Nat.cast_nonneg _) (Nat.cast_nonneg _)) hSpos
    · intro hv
      unfold barHeight
      have hle : (v.natAbs : ℚ) ≤ (maxAbsValue values : ℚ) := by
        have : v.natAbs ≤ maxAbsValue values :=
          le_trans (mem_le_foldl_max (List.mem_map_of_mem Int.natAbs hv) 0)
            (le_max_right 1 _)
        exact_mod_cast this
      calc ((v.natAbs : ℚ) / (maxAbsValue values : ℚ)) * SCALE
          ≤ 1 * SCALE := by
            refine mul_le_mul_of_nonneg_right ?_ hSpos
            exact (div_le_one (hmpos values)).mpr hle
        _ = SCALE := one_mul SCALE

/-- Witness for C2 at the concrete snapshot `[3, -5]`: the
maximum-magnitude element `-5` reaches exactly `SCALE`. -/

theorem bar_height_geometry_witness :
    barHeight [3, -5] (-5) = SCALE :=
  bar_height_geometry.2.1 [3, -5] (-5) (by decide) (by decide) (by decide)

/-- C3 (code bug): the dispatch switch accepts the tags `'bitmask'` and
`'binaryheap'` but their branches reference components that no import
binds, so rendering those tags throws instead of producing a visual;
an unrecognized tag does reach the visible unsupported-type
placeholder. -/

theorem dispatcher_undefined_component_reference :
    renderVisualization "bitmask" = .refError "BitmaskVisualizer" ∧
    renderVisualization "binaryheap" = .refError "HeapVisualizer" ∧
    renderVisualization "unknown_type" = .unsupported "unknown_type" ∧
    renderVisualization "trees" = .component "VisualizerFactory" := by
  refine ⟨?_, ?_, rfl, ?_⟩ <;> decide

/-- Changing one node to another with the same id leaves the success or
failure of every `nodeMap` lookup unchanged. -/

theorem treeNodeMapGet_isSome_congr (pre post : List TreeNode) (n n' : TreeNode)
    (hid : n'.id = n.id) (i : Nat) :
    (treeNodeMapGet (pre ++ n' :: post) i).isSome
      = (treeNodeMapGet (pre ++ n :: post) i).isSome := by
  rw [Bool.eq_iff_iff]
  simp only [treeNodeMapGet, List.find?_isSome, List.mem_reverse, List.mem_append,
    List.mem_cons]
  constructor
  · rintro ⟨x, (hx | rfl | hx), hpx⟩
    · exact ⟨x, Or.inl hx, hpx⟩
    · exact ⟨n, Or.inr (Or.inl rfl), by rwa [hid] at hpx⟩
    · exact ⟨x, Or.inr (Or.inr hx), hpx⟩
  · rintro ⟨x, (hx | rfl | hx), hpx⟩
    · exact ⟨x, Or.inl hx, hpx⟩
    · refine ⟨n', Or.inr (Or.inl rfl), ?_⟩
      rw [hid]
      exact hpx
    · exact ⟨x, Or.inr (Or.inr hx), hpx⟩

/-- The number of edges a child reference contributes depends only on
whether the lookup succeeds, not on the node found or the parent. -/

theorem childEdge_length_congr {ns ns' : List TreeNode}
    (h : ∀ i, (treeNodeMapGet ns' i).isSome = (treeNodeMapGet ns i).isSome)
    (m m' : TreeNode) (r : Option Nat) :
    (childEdge ns' m' r).length = (childEdge ns m r).length := by
  cases r with
  | none => rfl
  | some cid =>
    have hcid := h cid
    simp only [childEdge]
    cases h1 : treeNodeMapGet ns cid with
    | none =>
      cases h2 : treeNodeMapGet ns' cid with
      | none => rfl
      | some c => rw [h1, h2] at hcid; simp at hcid
    | some c =>
      cases h2 : treeNodeMapGet ns' cid with
      | none => rw [h1, h2] at hcid; simp at hcid
      | some c' => rfl

/-- Per-node edge count is likewise lookup-success determined, provided
the two parents carry the same child references. -/

theorem treeEdgesOfNode_length_congr {ns ns' : List TreeNode}
    (h : ∀ i, (treeNodeMapGet ns' i).isSome = (treeNodeMapGet ns i).isSome)
    (m : TreeNode) :
    (treeEdgesOfNode ns' m).length = (treeEdgesOfNode ns m).length := by
  simp only [treeEdgesOfNode, List.length_append]
  rw [childEdge_length_congr h m m, childEdge_length_congr h m m]

/-- Replacing the middle node by another with the same id shifts the
total edge count by exactly the difference of the middle node's own
edge contributions (every other node's contribution is unchanged). -/
theorem treeEdges_length_exchange (pre post : List TreeNode) (n n' : TreeNode)
    (hid : n'.id = n.id) :
    (treeEdges (pre ++ n' :: post)).length
        + (treeEdgesOfNode (pre ++ n :: post) n).length
      = (treeEdges (pre ++ n :: post)).length
        + (treeEdgesOfNode (pre ++ n' :: post) n').length := by
  have hsome : ∀ i, (treeNodeMapGet (pre ++ n' :: post) i).isSome
      = (treeNodeMapGet (pre ++ n :: post) i).isSome :=
    treeNodeMapGet_isSome_congr pre post n n' hid
  simp only [treeEdges, List.length_flatMap, List.map_append, List.map_cons,
    List.sum_append, List.sum_cons]
  have hpre : (pre.map (List.length ∘ treeEdgesOfNode (pre ++ n' :: post)))
      = (pre.map (List.length ∘ treeEdgesOfNode (pre ++ n :: post))) := by
    refine List.map_congr_left (fun m _ => ?_)
    exact treeEdgesOfNode_length_congr hsome m
  have hpost : (post.map (List.length ∘ treeEdgesOfNode (pre ++ n' :: post)))
      = (post.map (List.length ∘ treeEdgesOfNode (pre ++ n :: post))) := by
    refine List.map_congr_left (fun m _ => ?_)
    exact treeEdgesOfNode_length_congr hsome m
  rw [hpre, hpost]
  simp only [Function.comp_apply]
  omega

/-- A child reference that resolves contributes exactly one edge. -/
theorem childEdge_length_of_isSome {ns : List TreeNode} (m : TreeNode) {v : Nat}
    (hv : (treeNodeMapGet ns v).isSome) :
    (childEdge ns m (some v)).length = 1 := by
  simp only [childEdge]
  cases h : treeNodeMapGet ns v with
  | none => rw [h] at hv; simp at hv
  | some c => rfl

/-- A dangling child reference contributes no edge. -/
theorem childEdge_length_of_none {ns : List TreeNode} (m : TreeNode) {d : Nat}
    (hd : treeNodeMapGet ns d = none) :
    (childEdge ns m (some d)).length = 0 := by
  simp only [childEdge, hd]
  rfl

/-- C4: replacing one node's dangling child reference — left or right —
by a resolving one leaves the rendered circle count unchanged and adds
exactly one edge (so the dangling snapshot has exactly one fewer edge
and the same node count); and in the graph renderer a dangling-endpoint
edge renders nothing — appending it leaves the rendered edge list
unchanged — while appending a resolving edge adds exactly one, with the
circle list always one entry per node. -/
theorem dangling_reference_skips_only_edge :
    (∀ (pre post : List TreeNode) (n : TreeNode) (d v : Nat),
      n.left_child_id = some d →
      treeNodeMapGet (pre ++ n :: post) d = none →
      (treeNodeMapGet (pre ++ n :: post) v).isSome →
      (treeCircles (pre ++ {n with left_child_id := some v} :: post)).length
          = (treeCircles (pre ++ n :: post)).length ∧
      (treeEdges (pre ++ {n with left_child_id := some v} :: post)).length
          = (treeEdges (pre ++ n :: post)).length + 1) ∧
    (∀ (pre post : List TreeNode) (n : TreeNode) (d v : Nat),
      n.right_child_id = some d →
      treeNodeMapGet (pre ++ n :: post) d = none →
      (treeNodeMapGet (pre ++ n :: post) v).isSome →
      (treeCircles (pre ++ {n with right_child_id := some v} :: post)).length
          = (treeCircles (pre ++ n :: post)).length ∧
      (treeEdges (pre ++ {n with right_child_id := some v} :: post)).length
          = (treeEdges (pre ++ n :: post)).length + 1) ∧
    (∀ (nodes : List GraphNode) (es : List GraphEdge) (e e' : GraphEdge),
      (nodes.find? (fun x => x.id == e.from_node) = none ∨
        nodes.find? (fun x => x.id == e.to_node) = none) →
      (renderGraphEdge nodes e').isSome →
      renderGraphEdge nodes e = none ∧
      graphEdgesVis nodes (es ++ [e]) = graphEdgesVis nodes es ∧
      (graphEdgesVis nodes (es ++ [e'])).length = (graphEdgesVis nodes es).length + 1 ∧
      (graphCircles nodes).length = nodes.length) := by
  refine ⟨?_, ?_, ?_⟩
  · intro pre post n d v hleft hdangle hvalid
    set n' : TreeNode := {n with left_child_id := some v} with hn'
    have hid : n'.id = n.id := rfl
    have hsome : ∀ i, (treeNodeMapGet (pre ++ n' :: post) i).isSome
        = (treeNodeMapGet (pre ++ n :: post) i).isSome :=
      treeNodeMapGet_isSome_congr pre post n n' hid
    constructor
    · simp [treeCircles]
    · have hkey := treeEdges_length_exchange pre post n n' hid
      have hmid : (treeEdgesOfNode (pre ++ n' :: post) n').length
          = (treeEdgesOfNode (pre ++ n :: post) n).length + 1 := by
        simp only [treeEdgesOfNode, List.length_append]
        have h1 : (childEdge (pre ++ n' :: post) n' (some v)).length = 1 :=
          childEdge_length_of_isSome n' ((hsome v).trans hvalid ▸ rfl)
        have h2 : (childEdge (pre ++ n :: post) n n.left_child_id).length = 0 := by
          rw [hleft]
          exact childEdge_length_of_none n hdangle
        have h3 : (childEdge (pre ++ n' :: post) n' n.right_child_id).length
            = (childEdge (pre ++ n :: post) n n.right_child_id).length :=
          childEdge_length_congr hsome n n' _
        omega
      omega
  · intro pre post n d v href hdangle hvalid
    set n' : TreeNode := {n with right_child_id := some v} with hn'
    have hid : n'.id = n.id := rfl
    have hsome : ∀ i, (treeNodeMapGet (pre ++ n' :: post) i).isSome
        = (treeNodeMapGet (pre ++ n :: post) i).isSome :=
      treeNodeMapGet_isSome_congr pre post n n' hid
    constructor
    · simp [treeCircles]
    · have hkey := treeEdges_length_exchange pre post n n' hid
      have hmid : (treeEdgesOfNode (pre ++ n' :: post) n').length
          = (treeEdgesOfNode (pre ++ n :: post) n).length + 1 := by
        simp only [treeEdgesOfNode, List.length_append]
        have h1 : (childEdge (pre ++ n' :: post) n' (some v)).length = 1 :=
          childEdge_length_of_isSome n' ((hsome v).trans hvalid ▸ rfl)
        have h2 : (childEdge (pre ++ n :: post) n n.right_child_id).length = 0 := by
          rw [href]
          exact childEdge_length_of_none n hdangle
        have h3 : (childEdge (pre ++ n' :: post) n' n.left_child_id).length
            = (childEdge (pre ++ n :: post) n n.left_child_id).length :=
          childEdge_length_congr hsome n n' _
        omega
      omega
  · intro nodes es e e' hdangle hvalid
    have hnone : renderGraphEdge nodes e = none := by
      rcases hdangle with h | h <;> simp [renderGraphEdge, h]
    refine ⟨hnone, ?_, ?_, ?_⟩
    · simp [graphEdgesVis, List.filterMap_append, hnone]
    · cases hv : renderGraphEdge nodes e' with
      | none => rw [hv] at hvalid; simp at hvalid
      | some g => simp [graphEdgesVis, List.filterMap_append, hv]
    · simp [graphCircles]

/-- Witness for C4: a two-node tree whose root's left (resp. right)
reference 99 is dangling; repointing it to node 2 adds exactly one
edge and keeps both circles, and in a one-node graph a dangling edge
renders nothing. -/
theorem dangling_reference_skips_only_edge_witness :
    ((treeEdges [⟨1, 10, 100, 50, some 2, none⟩, ⟨2, 20, 60, 120, none, none⟩]).length
        = (treeEdges [⟨1, 10, 100, 50, some 99, none⟩, ⟨2, 20, 60, 120, none, none⟩]).length
          + 1) ∧
    ((treeEdges [⟨1, 10, 100, 50, none, some 2⟩, ⟨2, 20, 60, 120, none, none⟩]).length
        = (treeEdges [⟨1, 10, 100, 50, none, some 99⟩, ⟨2, 20, 60, 120, none, none⟩]).length
          + 1) ∧
    graphEdgesVis [⟨1, "a", 5, 5, "default", false⟩]
        ([] ++ [⟨1, 7, none, false, false⟩]) = graphEdgesVis [⟨1, "a", 5, 5, "default", false⟩] [] := by
  refine ⟨?_, ?_, ?_⟩
  · exact (dangling_reference_skips_only_edge.1 []
      [⟨2, 20, 60, 120, none, none⟩] ⟨1, 10, 100, 50, some 99, none⟩ 99 2
      rfl (by decide) (by decide)).2
  · exact (dangling_reference_skips_only_edge.2.1 []
      [⟨2, 20, 60, 120, none, none⟩] ⟨1, 10, 100, 50, none, some 99⟩ 99 2
      rfl (by decide) (by decide)).2
  · exact (dangling_reference_skips_only_edge.2.2 [⟨1, "a", 5, 5, "default", false⟩]
      [] ⟨1, 7, none, false, false⟩ ⟨1, 1, none, false, false⟩
      (Or.inr (by decide)) (by decide)).2.1

/-- A member of a non-empty list is bounded by its JS `Math.max`. -/

theorem mem_le_jsMathMax {x : Int} {l : List Int} (hx : x ∈ l) :
    x ≤ jsMathMax l := by
  cases l with
  | nil => cases hx
  | cons y ys =>
    rcases List.mem_cons.mp hx with rfl | h
    · exact le_foldl_max ys x
    · exact mem_le_foldl_max h y

/-- C8 counterexample: a rendered one-node tree with coordinates
`(-100, -100)` has viewBox bound `-100 + 60 = -40`, strictly below the
fixed margin — the claim's "bounds are always ≥ MARGIN" fails. -/

theorem canvas_bound_below_margin :
    (treeVisualizer (some ⟨"t", [⟨1, 10, -100, -100, none, none⟩]⟩)).isSome = true ∧
    treeMaxX ⟨"t", [⟨1, 10, -100, -100, none, none⟩]⟩ = -40 ∧
    ¬ (margin ≤ treeMaxX ⟨"t", [⟨1, 10, -100, -100, none, none⟩]⟩) := by
  refine ⟨rfl, rfl, ?_⟩
  decide

/-- C8 (amended): the viewBox bounds equal the maximal node coordinate
plus the margin and dominate every node coordinate plus the margin; on
an empty node set (or absent data) the structure is not rendered and no
bound is produced; and the bounds are ≥ the margin whenever all node
coordinates are non-negative (the unrestricted "always ≥ MARGIN" fails,
see the counterexample). -/

theorem canvas_bounds_max_plus_margin :
    (∀ d : TreeData,
      treeMaxX d = jsMathMax (d.nodes.map (fun n => n.x)) + margin ∧
      treeMaxY d = jsMathMax (d.nodes.map (fun n => n.y)) + margin ∧
      (∀ n ∈ d.nodes, n.x + margin ≤ treeMaxX d ∧ n.y + margin ≤ treeMaxY d) ∧
      ((d.nodes ≠ [] ∧ ∀ n ∈ d.nodes, 0 ≤ n.x ∧ 0 ≤ n.y) →
        margin ≤ treeMaxX d ∧ margin ≤ treeMaxY d) ∧
      (d.nodes = [] → treeVisualizer (some d) = none)) ∧
    (treeVisualizer none = none) ∧
    (∀ d : GraphData,
      graphMaxX d = jsMathMax (d.nodes.map (fun n => n.x)) + margin ∧
      graphMaxY d = jsMathMax (d.nodes.map (fun n => n.y)) + margin ∧
      (∀ n ∈ d.nodes, n.x + margin ≤ graphMaxX d ∧ n.y + margin ≤ graphMaxY d) ∧
      ((d.nodes ≠ [] ∧ ∀ n ∈ d.nodes, 0 ≤ n.x ∧ 0 ≤ n.y) →
        margin ≤ graphMaxX d ∧ margin ≤ graphMaxY d) ∧
      (d.nodes = [] → graphVisualizer (some d) = none)) ∧
    (graphVisualizer none = none) := by
  refine ⟨fun d => ⟨rfl, rfl, ?_, ?_, ?_⟩, rfl, fun d => ⟨rfl, rfl, ?_, ?_, ?_⟩, rfl⟩
  · intro n hn
    constructor
    · have : n.x ≤ jsMathMax (d.nodes.map (fun m => m.x)) :=
        mem_le_jsMathMax (List.mem_map_of_mem _ hn)
      simp only [treeMaxX]
      omega
    · have : n.y ≤ jsMathMax (d.nodes.map (fun m => m.y)) :=
        mem_le_jsMathMax (List.mem_map_of_mem _ hn)
      simp only [treeMaxY]
      omega
  · rintro ⟨hne, hpos⟩
    obtain ⟨n, hn⟩ := List.exists_mem_of_ne_nil d.nodes hne
    have hx : n.x ≤ jsMathMax (d.nodes.map (fun m => m.x)) :=
      mem_le_jsMathMax (List.mem_map_of_mem _ hn)
    have hy : n.y ≤ jsMathMax (d.nodes.map (fun m => m.y)) :=
      mem_le_jsMathMax (List.mem_map_of_mem _ hn)
    have := hpos n hn
    constructor
    · simp only [treeMaxX]; omega
    · simp only [treeMaxY]; omega
  · intro he
    simp [treeVisualizer, he]
  · intro n hn
    constructor
    · have : n.x ≤ jsMathMax (d.nodes.map (fun m => m.x)) :=
        mem_le_jsMathMax (List.mem_map_of_mem _ hn)
      simp only [graphMaxX]
      omega
    · have : n.y ≤ jsMathMax (d.nodes.map (fun m => m.y)) :=
        mem_le_jsMathMax (List.mem_map_of_mem _ hn)
      simp only [graphMaxY]
      omega
  · rintro ⟨hne, hpos⟩
    obtain ⟨n, hn⟩ := List.exists_mem_of_ne_nil d.nodes hne
    have hx : n.x ≤ jsMathMax (d.nodes.map (fun m => m.x)) :=
      mem_le_jsMathMax (List.mem_map_of_mem _ hn)
    have hy : n.y ≤ jsMathMax (d.nodes.map (fun m => m.y)) :=
      mem_le_jsMathMax (List.mem_map_of_mem _ hn)
    have := hpos n hn
    constructor
    · simp only [graphMaxX]; omega
    · simp only [graphMaxY]; omega
  · intro he
    simp [graphVisualizer, he]

/-- Witness for the amended C8 at a concrete two-node tree. -/

theorem canvas_bounds_max_plus_margin_witness :
    margin ≤ treeMaxX ⟨"t", [⟨1, 10, 100, 50, none, none⟩, ⟨2, 20, 60, 120, none, none⟩]⟩ :=
  ((canvas_bounds_max_plus_margin.1
      ⟨"t", [⟨1, 10, 100, 50, none, none⟩, ⟨2, 20, 60, 120, none, none⟩]⟩).2.2.2.1
    ⟨by decide, by decide⟩).1

/-- Rendering preserves the element count. -/

theorem queueElemsAux_length (h : NormHighlights) (total : Nat) :
    ∀ (i : Nat) (vs : List Int), (queueElemsAux h total i vs).length = vs.length := by
  intro i vs
  induction vs generalizing i with
  | nil => rfl
  | cons v rest ih => simp [queueElemsAux, ih]

/-- No element emitted from a positive starting index is front-marked. -/

theorem queueElemsAux_no_front (h : NormHighlights) (total : Nat) :
    ∀ (i : Nat) (vs : List Int), 1 ≤ i →
      (queueElemsAux h total i vs).filter (fun e => e.isFront) = [] := by
  intro i vs
  induction vs generalizing i with
  | nil => intro _; rfl
  | cons v rest ih =>
    intro hi
    have : (i == 0) = false := by
      simp only [beq_eq_false_iff_ne]
      omega
    simp [queueElemsAux, List.filter_cons, this, ih (i + 1) (by omega)]

/-- Exactly the element at position `total - 1` is rear-marked, and it
carries the last value. -/

theorem queueElemsAux_rear (h : NormHighlights) (total : Nat) :
    ∀ (vs : List Int) (i : Nat) (d : Int), i + vs.length = total → vs ≠ [] →
      ((queueElemsAux h total i vs).filter (fun e => e.isRear)).map (fun e => e.value)
        = [vs.getLastD d] := by
  intro vs
  induction vs with
  | nil => intro i d _ hne; cases hne rfl
  | cons v rest ih =>
    intro i d htot _
    cases rest with
    | nil =>
      have hmark : (i == total - 1) = true := by
        simp only [List.length_cons, List.length_nil] at htot
        simp only [beq_iff_eq]
        omega
      simp [queueElemsAux, List.filter_cons, hmark, List.getLastD_cons]
    | cons w rest' =>
      have hlen : (i + 1) + (w :: rest').length = total := by
        simp only [List.length_cons] at htot ⊢
        omega
      have hmark : (i == total - 1) = false := by
        simp only [List.length_cons] at htot
        simp only [beq_eq_false_iff_ne]
        omega
      rw [List.getLastD_cons]
      have hstep : queueElemsAux h total i (v :: w :: rest')
          = ⟨v, queueElemColor h i, queueElemLabel h i, i == 0, i == total - 1⟩
            :: queueElemsAux h total (i + 1) (w :: rest') := rfl
      have hcond : ¬ ((⟨v, queueElemColor h i, queueElemLabel h i, i == 0,
          i == total - 1⟩ : QueueElem).isRear = true) := by
        simp only [hmark]
        simp
      rw [hstep, List.filter_cons_of_neg hcond]
      exact ih (i + 1) v hlen (by simp)

/-- Exactly the element at position 0 is front-marked, and it carries
the first value. -/

theorem queueElemsAux_front (h : NormHighlights) (total : Nat)
    (vs : List Int) (hne : vs ≠ []) :
    ((queueElemsAux h total 0 vs).filter (fun e => e.isFront)).map (fun e => e.value)
      = [vs.headD 0] := by
  cases vs with
  | nil => cases hne rfl
  | cons v rest =>
    have hstep : queueElemsAux h total 0 (v :: rest)
        = ⟨v, queueElemColor h 0, queueElemLabel h 0, (0 : Nat) == 0,
            (0 : Nat) == total - 1⟩ :: queueElemsAux h total 1 rest := rfl
    have hcond : ((⟨v, queueElemColor h 0, queueElemLabel h 0, (0 : Nat) == 0,
        (0 : Nat) == total - 1⟩ : QueueElem).isFront = true) := by rfl
    rw [hstep, List.filter_cons_of_pos hcond,
      queueElemsAux_no_front h total 1 rest (by omega)]
    rfl

/-- C6: an empty queue renders only the empty-state placeholder; a
non-empty queue renders one element per value with the FRONT marker on
exactly the first logical element and the REAR marker on exactly the
last, whatever the annotation state `hl`. -/

theorem queue_front_rear_markers :
    (∀ (data : Option QueueInput) (hl : NormHighlights),
      queueValues data = [] → queueVisualizer data hl = .emptyQueue) ∧
    (∀ (data : Option QueueInput) (hl : NormHighlights) (elems : List QueueElem),
      queueVisualizer data hl = .elements elems →
      elems.length = (queueValues data).length ∧
      (elems.filter (fun e => e.isFront)).map (fun e => e.value)
          = [(queueValues data).headD 0] ∧
      (elems.filter (fun e => e.isRear)).map (fun e => e.value)
          = [(queueValues data).getLastD 0]) := by
  constructor
  · intro data hl hemp
    simp [queueVisualizer, hemp]
  · intro data hl elems helems
    by_cases hemp : (queueValues data).isEmpty
    · simp [queueVisualizer, hemp] at helems
    · have hne : queueValues data ≠ [] := by
        simpa [List.isEmpty_iff] using hemp
      have hval : queueVisualizer data hl
          = .elements (queueElemsAux hl (queueValues data).length 0 (queueValues data)) := by
        simp [queueVisualizer, hemp]
      rw [hval] at helems
      injection helems with helems
      subst helems
      refine ⟨queueElemsAux_length hl _ 0 _, ?_, ?_⟩
      · exact queueElemsAux_front hl _ _ hne
      · exact queueElemsAux_rear hl _ _ 0 0 (by omega) hne

/-- Witness for C6 with values `[5, 6, 7]`: FRONT attaches to 5, REAR
to 7. -/

theorem queue_front_rear_markers_witness :
    (((queueElemsAux ⟨none, none, none⟩ 3 0 [5, 6, 7]).filter
        (fun e => e.isFront)).map (fun e => e.value) = [5]) ∧
    (((queueElemsAux ⟨none, none, none⟩ 3 0 [5, 6, 7]).filter
        (fun e => e.isRear)).map (fun e => e.value) = [7]) :=
  ⟨(queue_front_rear_markers.2 (some (.objData [5, 6, 7])) ⟨none, none, none⟩ _ rfl).2.1,
   (queue_front_rear_markers.2 (some (.objData [5, 6, 7])) ⟨none, none, none⟩ _ rfl).2.2⟩

/-- `getLast?` skips a head in front of a non-empty tail. -/

theorem getLast?_cons_of_ne_nil {α : Type*} {a : α} {l : List α} (h : l ≠ []) :
    (a :: l).getLast? = l.getLast? := by
  cases l with
  | nil => cases h rfl
  | cons b t => exact List.getLast?_cons_cons

/-- A rendered non-empty node list is non-empty. -/

theorem llRenderAux_ne_nil (total i : Nat) (n : LLNode) (rest : List LLNode) :
    llRenderAux total i (n :: rest) ≠ [] := by
  simp [llRenderAux]

/-- Under the absence-marks-end convention, rendering emits exactly one
NULL terminal marker. -/

theorem llRenderAux_count_null (total : Nat) :
    ∀ (nodes : List LLNode) (i : Nat), llWellFormed nodes = true → nodes ≠ [] →
      (llRenderAux total i nodes).count .nullMarker = 1 := by
  intro nodes
  induction nodes with
  | nil => intro i _ hne; cases hne rfl
  | cons n rest ih =>
    intro i hwf _
    cases rest with
    | nil =>
      have hnone : n.next.isSome = false := by
        simp only [llWellFormed] at hwf
        simp [Option.isNone_iff_eq_none.mp hwf]
      have hstep : llRenderAux total i [n]
          = .nodeBox i n.value (i == 0) (i == total - 1) (llNodeColor n)
            :: (if n.next.isSome then LLItem.arrow else .nullMarker) :: [] := rfl
      rw [hstep, hnone]
      simp [List.count_cons]
    | cons m rest' =>
      have hsome : n.next.isSome = true := by
        simp only [llWellFormed, Bool.and_eq_true] at hwf
        exact hwf.1
      have hwf' : llWellFormed (m :: rest') = true := by
        simp only [llWellFormed, Bool.and_eq_true] at hwf
        exact hwf.2
      have hstep : llRenderAux total i (n :: m :: rest')
          = .nodeBox i n.value (i == 0) (i == total - 1) (llNodeColor n)
            :: (if n.next.isSome then LLItem.arrow else .nullMarker)
            :: llRenderAux total (i + 1) (m :: rest') := rfl
      rw [hstep, hsome]
      simp [List.count_cons, ih (i + 1) hwf' (by simp)]

/-- Under the convention, the NULL marker is the very last fragment. -/

theorem llRenderAux_getLast_null (total : Nat) :
    ∀ (nodes : List LLNode) (i : Nat), llWellFormed nodes = true → nodes ≠ [] →
      (llRenderAux total i nodes).getLast? = some .nullMarker := by
  intro nodes
  induction nodes with
  | nil => intro i _ hne; cases hne rfl
  | cons n rest ih =>
    intro i hwf _
    cases rest with
    | nil =>
      have hnone : n.next.isSome = false := by
        simp only [llWellFormed] at hwf
        simp [Option.isNone_iff_eq_none.mp hwf]
      have hstep : llRenderAux total i [n]
          = .nodeBox i n.value (i == 0) (i == total - 1) (llNodeColor n)
            :: (if n.next.isSome then LLItem.arrow else .nullMarker) :: [] := rfl
      rw [hstep, hnone]
      rfl
    | cons m rest' =>
      have hsome : n.next.isSome = true := by
        simp only [llWellFormed, Bool.and_eq_true] at hwf
        exact hwf.1
      have hwf' : llWellFormed (m :: rest') = true := by
        simp only [llWellFormed, Bool.and_eq_true] at hwf
        exact hwf.2
      have hstep : llRenderAux total i (n :: m :: rest')
          = .nodeBox i n.value (i == 0) (i == total - 1) (llNodeColor n)
            :: (if n.next.isSome then LLItem.arrow else .nullMarker)
            :: llRenderAux total (i + 1) (m :: rest') := rfl
      rw [hstep, hsome]
      rw [show (if true = true then LLItem.arrow else LLItem.nullMarker) = LLItem.arrow
        from rfl]
      rw [getLast?_cons_of_ne_nil (by
        exact List.cons_ne_nil _ _),
        getLast?_cons_of_ne_nil (llRenderAux_ne_nil total (i + 1) m rest')]
      exact ih (i + 1) hwf' (by simp)

/-- Every emitted node box carries head/tail flags determined purely by
its position: head iff index 0, tail iff index `total - 1`. -/

theorem llRenderAux_box_flags (total : Nat) :
    ∀ (nodes : List LLNode) (i₀ idx : Nat) (v : Int) (hd tl : Bool) (c : String),
      LLItem.nodeBox idx v hd tl c ∈ llRenderAux total i₀ nodes →
      hd = (idx == 0) ∧ tl = (idx == total - 1) := by
  intro nodes
  induction nodes with
  | nil =>
    intro i₀ idx v hd tl c hmem
    simp [llRenderAux] at hmem
  | cons n rest ih =>
    intro i₀ idx v hd tl c hmem
    have hstep : llRenderAux total i₀ (n :: rest)
        = .nodeBox i₀ n.value (i₀ == 0) (i₀ == total - 1) (llNodeColor n)
          :: (if n.next.isSome then LLItem.arrow else .nullMarker)
          :: llRenderAux total (i₀ + 1) rest := rfl
    rw [hstep] at hmem
    rcases List.mem_cons.mp hmem with heq | hmem2
    · injection heq with h1 h2 h3 h4 h5
      subst h1
      exact ⟨h3, h4⟩
    · rcases List.mem_cons.mp hmem2 with heq2 | hmem3
      · cases hs : n.next.isSome <;> rw [hs] at heq2 <;> simp at heq2
      · exact ih (i₀ + 1) idx v hd tl c hmem3

/-- No box emitted from a positive starting index is head-marked. -/

theorem llRenderAux_no_head (total : Nat) :
    ∀ (nodes : List LLNode) (i : Nat), 1 ≤ i →
      (llRenderAux total i nodes).countP isHeadBox = 0 := by
  intro nodes
  induction nodes with
  | nil => intro i _; rfl
  | cons n rest ih =>
    intro i hi
    have hstep : llRenderAux total i (n :: rest)
        = .nodeBox i n.value (i == 0) (i == total - 1) (llNodeColor n)
          :: (if n.next.isSome then LLItem.arrow else .nullMarker)
          :: llRenderAux total (i + 1) rest := rfl
    have hbox : (i == 0) = false := by
      simp only [beq_eq_false_iff_ne]
      omega
    rw [hstep]
    cases hs : n.next.isSome <;>
      simp [List.countP_cons, isHeadBox, hbox, ih (i + 1) (by omega)]

/-- Exactly one emitted box is head-marked. -/

theorem llRenderAux_one_head (total : Nat) (nodes : List LLNode) (hne : nodes ≠ []) :
    (llRenderAux total 0 nodes).countP isHeadBox = 1 := by
  cases nodes with
  | nil => cases hne rfl
  | cons n rest =>
    have hstep : llRenderAux total 0 (n :: rest)
        = .nodeBox 0 n.value ((0 : Nat) == 0) ((0 : Nat) == total - 1) (llNodeColor n)
          :: (if n.next.isSome then LLItem.arrow else .nullMarker)
          :: llRenderAux total 1 rest := rfl
    rw [hstep]
    cases hs : n.next.isSome <;>
      simp [List.countP_cons, isHeadBox, llRenderAux_no_head total rest 1 (by omega)]

/-- Exactly one emitted box is tail-marked. -/

theorem llRenderAux_one_tail (total : Nat) :
    ∀ (nodes : List LLNode) (i : Nat), i + nodes.length = total → nodes ≠ [] →
      (llRenderAux total i nodes).countP isTailBox = 1 := by
  intro nodes
  induction nodes with
  | nil => intro i _ hne; cases hne rfl
  | cons n rest ih =>
    intro i htot _
    cases rest with
    | nil =>
      have hmark : (i == total - 1) = true := by
        simp only [List.length_cons, List.length_nil] at htot
        simp only [beq_iff_eq]
        omega
      have hstep : llRenderAux total i [n]
          = .nodeBox i n.value (i == 0) (i == total - 1) (llNodeColor n)
            :: (if n.next.isSome then LLItem.arrow else .nullMarker) :: [] := rfl
      rw [hstep, hmark]
      cases hs : n.next.isSome <;> simp [List.countP_cons, isTailBox]
    | cons m rest' =>
      have hlen : (i + 1) + (m :: rest').length = total := by
        simp only [List.length_cons] at htot ⊢
        omega
      have hmark : (i == total - 1) = false := by
        simp only [List.length_cons] at htot
        simp only [beq_eq_false_iff_ne]
        omega
      have hstep : llRenderAux total i (n :: m :: rest')
          = .nodeBox i n.value (i == 0) (i == total - 1) (llNodeColor n)
            :: (if n.next.isSome then LLItem.arrow else .nullMarker)
            :: llRenderAux total (i + 1) (m :: rest') := rfl
      rw [hstep, hmark]
      cases hs : n.next.isSome <;>
        simp [List.countP_cons, isTailBox, ih (i + 1) hlen (by simp)]

/-- C7: for a non-empty snapshot whose `next` fields follow the
absence-marks-end convention, the rendered row contains exactly one
NULL terminal marker, placed last (after the final element's box);
exactly one head-marked and one tail-marked box exist; and every box's
head/tail flag is determined purely by position — head iff index 0,
tail iff the final index — independent of highlight state. -/

theorem linked_list_null_terminal_and_markers (nodes : List LLNode)
    (hne : nodes ≠ []) (hwf : llWellFormed nodes = true) :
    (llRender nodes).count .nullMarker = 1 ∧
    (llRender nodes).getLast? = some .nullMarker ∧
    (llRender nodes).countP isHeadBox = 1 ∧
    (llRender nodes).countP isTailBox = 1 ∧
    (∀ (idx : Nat) (v : Int) (hd tl : Bool) (c : String),
      LLItem.nodeBox idx v hd tl c ∈ llRender nodes →
      (hd = true ↔ idx = 0) ∧ (tl = true ↔ idx = nodes.length - 1)) := by
  refine ⟨llRenderAux_count_null nodes.length nodes 0 hwf hne,
    llRenderAux_getLast_null nodes.length nodes 0 hwf hne,
    llRenderAux_one_head nodes.length nodes hne,
    llRenderAux_one_tail nodes.length nodes 0 (by omega) hne,
    ?_⟩
  intro idx v hd tl c hmem
  obtain ⟨h1, h2⟩ := llRenderAux_box_flags nodes.length nodes 0 idx v hd tl c hmem
  subst h1
  subst h2
  constructor
  · simp [beq_iff_eq]
  · simp [beq_iff_eq]

/-- Mapping into a single category yields a constant category block. -/

theorem map_cat_const {β : Type} (g : β → FactoryChild) (cat : Category)
    (hg : ∀ x, childCategory (g x) = cat) (l : List β) :
    (l.map g).map childCategory = List.replicate l.length cat := by
  induction l with
  | nil => rfl
  | cons x t ih => simp [List.map_cons, List.replicate_succ, hg x, ih]

/-- C5: the factory's rendered children are sorted by the fixed
category order (arrays, trees, graphs, linked-lists, stacks, queues,
variables), and each category contributes exactly one child per
structure present in the frame — so populated categories are rendered
and empty or absent ones are omitted. -/
theorem composite_frame_categories (f : Frame) :
    ((visualizerFactoryChildren f).map childCategory).Pairwise
      (fun a b => catRank a ≤ catRank b) ∧
    (∀ c : Category,
      ((visualizerFactoryChildren f).map childCategory).count c
        = categoryMultiplicity f c) := by
  have hmap : (visualizerFactoryChildren f).map childCategory
      = List.replicate f.arrays.length .arrays
        ++ List.replicate f.trees.length .trees
        ++ List.replicate f.graphs.length .graphs
        ++ List.replicate f.linked_lists.length .linkedLists
        ++ List.replicate f.stackSnaps.length .stacks
        ++ List.replicate f.queues.length .queues
        ++ (if f.varRows.isEmpty then [] else [Category.vars]) := by
    simp only [visualizerFactoryChildren, List.map_append]
    rw [map_cat_const FactoryChild.arrayChild .arrays (fun _ => rfl),
      map_cat_const FactoryChild.treeChild .trees (fun _ => rfl),
      map_cat_const FactoryChild.graphChild .graphs (fun _ => rfl),
      map_cat_const FactoryChild.listChild .linkedLists (fun _ => rfl),
      map_cat_const FactoryChild.stackChild .stacks (fun _ => rfl),
      map_cat_const FactoryChild.queueChild .queues (fun _ => rfl)]
    by_cases hv : f.varRows.isEmpty <;> simp [hv, childCategory]
  constructor
  · rw [hmap]
    by_cases hv : f.varRows.isEmpty <;>
      simp [hv, List.pairwise_append, List.pairwise_replicate, List.mem_replicate,
        catRank] <;>
      (repeat' constructor) <;>
      (intro h1 b hb; cases b <;> simp_all)
  · intro c
    rw [hmap]
    by_cases hv : f.varRows.isEmpty <;> cases c <;>
      simp [hv, List.count_append, List.count_replicate, categoryMultiplicity]

/-- Witness for C7: a two-node list `1 → 2 → NULL`. -/

theorem linked_list_null_terminal_and_markers_witness :
    (llRender [⟨1, some 1, false, "default"⟩, ⟨2, none, true, "red"⟩]).count
        LLItem.nullMarker = 1 ∧
    (llRender [⟨1, some 1, false, "default"⟩, ⟨2, none, true, "red"⟩]).getLast?
        = some LLItem.nullMarker :=
  ⟨(linked_list_null_terminal_and_markers
      [⟨1, some 1, false, "default"⟩, ⟨2, none, true, "red"⟩]
      (by decide) (by decide)).1,
   (linked_list_null_terminal_and_markers
      [⟨1, some 1, false, "default"⟩, ⟨2, none, true, "red"⟩]
      (by decide) (by decide)).2.1⟩

end AlgoViz
